import Mathlib

/-!
Verification of the batch-collection engine in `steam_data_collection.py`.

The development shallowly embeds the functions `get_request`, `get_app_data`,
`process_batches`, `reset_index`, `get_index` and `prepare_data_file`.
File contents are modelled explicitly: the data CSV as a list of rows (each a
list of cell strings, the header row included) and the checkpoint file as an
optional string (`none` standing for a missing file).  Wall-clock sleeps,
console output and the CSV quoting of individual cells do not affect the
properties below and are not modelled; retry sleeps of the HTTP client are
recorded as data so the retry/cooldown behaviour stays observable.
-/

namespace SteamData

/-! ## Python integer printing and parsing -/

/-- Decimal digits of a natural number, most significant first.  Fuel-indexed
structural recursion; fuel `n + 1` suffices for `n`.  Models Python `str` on a
non-negative integer. -/
def natReprAux : Nat → Nat → List Char
  | 0, _ => []
  | fuel + 1, n =>
    if n < 10 then [Nat.digitChar n]
    else natReprAux fuel (n / 10) ++ [Nat.digitChar (n % 10)]

/-- Decimal digit string of a natural number. -/
def natRepr (n : Nat) : List Char := natReprAux (n + 1) n

/-- Python `str` applied to an `int`. -/
def intStr (n : Int) : String :=
  if n < 0 then String.mk ('-' :: natRepr (-n).toNat) else String.mk (natRepr n.toNat)

/-- Content produced in a file by `print(n, file=f)`: `str(n)` plus a newline. -/
def pyPrintLine (n : Int) : String := intStr n ++ "\n"

/-- Model of `f.readline()`: the first line of the file content, including its
terminating newline when one is present. -/
def readline (s : String) : String :=
  String.mk (s.data.takeWhile (fun c => c != '\n') ++
    (if s.data.contains '\n' then ['\n'] else []))

/-- Strip leading and trailing whitespace, as Python `int` does before
parsing. -/
def stripChars (cs : List Char) : List Char :=
  ((cs.dropWhile Char.isWhitespace).reverse.dropWhile Char.isWhitespace).reverse

/-- Value of a most-significant-first decimal digit list. -/
def decDigitsVal (cs : List Char) : Nat :=
  cs.foldl (fun a c => 10 * a + (c.toNat - 48)) 0

/-- Parse a non-empty all-digit character list. -/
def parseDigits (cs : List Char) : Option Int :=
  if cs ≠ [] ∧ cs.all Char.isDigit then some (decDigitsVal cs : Int) else none

/-- Model of Python `int(s)` on its integer formats: optional surrounding
whitespace, an optional sign, then one or more decimal digits (underscore
grouping, an exotic format nothing here produces, is not modelled). -/
def pyIntParse (s : String) : Option Int :=
  match stripChars s.data with
  | [] => none
  | c :: rest =>
    if c = '-' then (parseDigits rest).map (fun v => -v)
    else if c = '+' then parseDigits rest
    else parseDigits (c :: rest)

/-! ## Data model -/

/-- One row of the entity list: an app id and a display name. -/
structure Entity where
  appid : Int
  name : String
deriving DecidableEq

/-- A parsed record: a Python dict from column name to (stringified) cell
value. -/
abbrev Record := List (String × String)

/-- Python slice `l[start:stop]` for the non-negative bounds the orchestrator
produces (out-of-range bounds clamp and never error). -/
def pySlice (l : List α) (start stop : Int) : List α :=
  (l.drop start.toNat).take (stop.toNat - start.toNat)

/-- One row as `csv.DictWriter(f, fieldnames=columns, extrasaction=ignore)`
renders it: one cell per declared column in declared order, the default
`restval` of an empty string for a column the record lacks, extra record keys
ignored. -/
def renderRow (columns : List String) (r : Record) : List String :=
  columns.map (fun c => (r.lookup c).getD "")

/-! ## Checkpoint store and sink preparation -/

/-- Python exceptions that the embedded functions can propagate. -/
inductive PyErr
  | valueError
  | nameError
deriving DecidableEq

/-- `get_index(download_path, index_filename)`: read the checkpoint file.
`none` models a missing file, whose `FileNotFoundError` is caught and turned
into 0; a present file whose first line `int(...)` cannot parse raises
`ValueError`, which nothing catches. -/
def get_index (indexFile : Option String) : Except PyErr Int :=
  match indexFile with
  | none => .ok 0
  | some content =>
    match pyIntParse (readline content) with
    | some n => .ok n
    | none => .error .valueError

/-- `reset_index(download_path, index_filename)`: overwrite the checkpoint
file with `print(0, file=f)`. -/
def reset_index (_indexFile : Option String) : Option String :=
  some (pyPrintLine 0)

/-- `prepare_data_file(download_path, filename, index, columns)`: when the
retrieved index is 0, truncate or create the data file, leaving exactly the
header row of declared column names; otherwise touch nothing. -/
def prepare_data_file (dataFile : List (List String)) (index : Int)
    (columns : List String) : List (List String) :=
  if index = 0 then [columns] else dataFile

/-! ## Transient-fault HTTP client -/

/-- Classes of exception `requests.get` can raise. -/
inductive ExnClass
  | sslExn
  | otherExn
deriving DecidableEq

/-- Errors `get_request` can propagate to its caller. -/
inductive ReqErr
  | nameError
  | uncaught (k : ExnClass)
deriving DecidableEq

/-- One call to `requests.get`: either it raises, or it returns a response
carrying an HTTP status code and a decoded body.  In the requests library
`bool(response)` is `response.ok`, i.e. `status < 400`. -/
inductive TransportEvent (α : Type)
  | raises (k : ExnClass)
  | response (status : Nat) (body : α)

/-- Names the module's import block (source lines 14-27) binds at top level.
No other statement in the module binds the name `SSLError`. -/
def importedNames : List String :=
  ["csv", "dt", "json", "os", "statistics", "time", "sys", "np", "pd",
   "BeautifulSoup", "requests"]

/-- Evaluating the handler clause `except SSLError` looks the name `SSLError`
up in the module scope; an unbound name raises `NameError` at that point,
before any diagnostic or sleep of the handler body runs. -/
def exceptClauseClass : Except ReqErr Unit :=
  if importedNames.contains "SSLError" then .ok () else .error .nameError

/-- `get_request(url, parameters)`, driven by a transport that maps the
attempt number to what `requests.get` does on that attempt (the url and
parameters of every retry are the originals, so the attempt number is the only
thing that varies).  Returns the outcome, the number of transport attempts
made, and the list of sleep durations in seconds that were performed; `none`
means the call did not terminate within `fuel` attempts (the source's retry
recursion is unbounded). -/
def get_request (transport : Nat → TransportEvent α) :
    Nat → Nat → Option (Except ReqErr α × Nat × List Nat)
  | 0, _ => none
  | fuel + 1, k =>
    match transport k with
    | .raises kind =>
      match exceptClauseClass with
      | .error e => some (.error e, 1, [])
      | .ok _ =>
        match kind with
        | .sslExn =>
          -- diagnostic, five 1-second countdown sleeps, then
          -- `return get_request(url, parameters)`
          (get_request transport fuel (k + 1)).map
            (fun r => (r.1, r.2.1 + 1, [1, 1, 1, 1, 1] ++ r.2.2))
        | .otherExn => some (.error (.uncaught .otherExn), 1, [])
    | .response status body =>
      if status < 400 then some (.ok body, 1, [])
      else
        -- falsy response: wait 10 seconds, then `return get_request(url, parameters)`
        (get_request transport fuel (k + 1)).map
          (fun r => (r.1, r.2.1 + 1, 10 :: r.2.2))

/-! ## Batch orchestrator -/

/-- Length of `np.arange(b, e, s)` for a positive integer step `s`. -/
def arangeLen (b e s : Int) : Nat :=
  if e ≤ b then 0 else (e - b - 1).toNat / s.toNat + 1

/-- `np.arange(b, e, s)` for a positive integer step `s`. -/
def arange (b e s : Int) : List Int :=
  (List.range (arangeLen b e s)).map (fun i : Nat => b + s * (i : Int))

/-- The `batches` array of `process_batches`:
`np.append(np.arange(begin, end, batchsize), end)`. -/
def batchGrid (b e s : Int) : List Int := arange b e s ++ [e]

/-- The `(batches[i], batches[i+1])` pairs visited by the loop
`for i in range(len(batches) - 1)`. -/
def batchPairs (xs : List Int) : List (Int × Int) := xs.zip xs.tail

/-- Contents of the two files `process_batches` writes: the data CSV (one
entry per row, header included) and the checkpoint file, plus a history of
every value persisted to the checkpoint file during the run (a ghost field,
oldest first, recording the successive writes). -/
structure SinkState where
  dataFile : List (List String)
  indexFile : Option String
  idxHistory : List Int
deriving DecidableEq

/-- The fetch loop of `get_app_data`: call the parser on each row in order; a
raise propagates at once, discarding the partial in-memory list. -/
def fetchRows (parser : Int → String → Except ε Record) :
    List Entity → Except ε (List Record)
  | [] => .ok []
  | r :: rs =>
    match parser r.appid r.name with
    | .error e => .error e
    | .ok d =>
      match fetchRows parser rs with
      | .error e => .error e
      | .ok ds => .ok (d :: ds)

/-- `get_app_data(start, stop, parser, pause)`: iterate `app_list[start:stop]`
where `app_list` is the module-level global (not the `process_batches`
parameter), building the record list; `pause` only sleeps. -/
def get_app_data (globalAppList : List Entity) (start stop : Int)
    (parser : Int → String → Except ε Record) : Except ε (List Record) :=
  fetchRows parser (pySlice globalAppList start stop)

/-- The batch loop of `process_batches`: per pair, fetch the batch via
`get_app_data` (a raise aborts the run, leaving both files exactly as they
are), append the rendered rows to the data file, then overwrite the checkpoint
file with `print(stop, file=f)`. -/
def runBatches (parser : Int → String → Except ε Record)
    (globalAppList : List Entity) (columns : List String) :
    List (Int × Int) → SinkState → SinkState × Option ε
  | [], st => (st, none)
  | (start, stop) :: rest, st =>
    match get_app_data globalAppList start stop parser with
    | .error e => (st, some e)
    | .ok app_data =>
      runBatches parser globalAppList columns rest
        { dataFile := st.dataFile ++ app_data.map (renderRow columns),
          indexFile := some (pyPrintLine stop),
          idxHistory := st.idxHistory ++ [stop] }

/-- `process_batches(parser, app_list, download_path, data_filename,
index_filename, columns, begin, end, batchsize, pause)` acting on the sink
state.  The `app_list` parameter is consulted only by the `end == -1` default;
the rows themselves come from the module-level global list (see
`get_app_data`).  Paths and filenames select which files the state models;
they, the timing report and `pause` do not affect file contents. -/
def process_batches (parser : Int → String → Except ε Record)
    (app_list globalAppList : List Entity) (columns : List String)
    (begin_ end_ batchsize : Int) (st : SinkState) : SinkState × Option ε :=
  let e2 : Int := if end_ = -1 then (app_list.length : Int) + 1 else end_
  runBatches parser globalAppList columns (batchPairs (batchGrid begin_ e2 batchsize)) st

/-- A parser that never raises, returning `p appid name`; the lift of a pure
fetch/parse function into the embedding. -/
def pureParser (p : Int → String → Record) : Int → String → Except String Record :=
  fun a n => .ok (p a n)

/-- Rows a completed batch `[start, stop)` contributes to the data file under
a pure parser. -/
def batchRows (g : List Entity) (columns : List String) (p : Int → String → Record)
    (start stop : Int) : List (List String) :=
  (pySlice g start stop).map (fun r => renderRow columns (p r.appid r.name))

/-- The checkpoint-file content after a run that persisted the listed stop
values (initial content if none were). -/
def lastIdxWrite (init : Option String) (stops : List Int) : Option String :=
  match stops.getLast? with
  | none => init
  | some t => some (pyPrintLine t)

/-! ## Basic facts about the batch loop -/

theorem fetchRows_pure (p : Int → String → Record) (l : List Entity) :
    fetchRows (pureParser p) l = .ok (l.map (fun r => p r.appid r.name)) := by
  induction l with
  | nil => rfl
  | cons r rs ih => simp [fetchRows, pureParser, ih]

theorem get_app_data_pure (p : Int → String → Record) (g : List Entity)
    (start stop : Int) :
    get_app_data g start stop (pureParser p) =
      .ok ((pySlice g start stop).map (fun r => p r.appid r.name)) := by
  simp [get_app_data, fetchRows_pure]

theorem lastIdxWrite_append (init : Option String) (s₁ s₂ : List Int) :
    lastIdxWrite (lastIdxWrite init s₁) s₂ = lastIdxWrite init (s₁ ++ s₂) := by
  cases h : s₂.getLast? with
  | none =>
    have h2 : s₂ = [] := by
      cases s₂ with
      | nil => rfl
      | cons a l => simp [List.getLast?_eq_getLast] at h
    simp [h2, lastIdxWrite]
  | some t =>
    simp [lastIdxWrite, List.getLast?_append, h]

/-- Closed form of the batch loop under a pure parser: every batch completes,
each batch appends its rendered slice of the global list, the checkpoint file
ends at the last stop written, and the ghost history records each stop in
order. -/
theorem runBatches_pure (p : Int → String → Record) (g : List Entity)
    (columns : List String) (pairs : List (Int × Int)) (st : SinkState) :
    runBatches (pureParser p) g columns pairs st =
      ({ dataFile := st.dataFile ++
            (pairs.flatMap (fun pr => batchRows g columns p pr.1 pr.2)),
         indexFile := lastIdxWrite st.indexFile (pairs.map Prod.snd),
         idxHistory := st.idxHistory ++ pairs.map Prod.snd }, none) := by
  induction pairs generalizing st with
  | nil => simp [runBatches, lastIdxWrite]
  | cons pr rest ih =>
    obtain ⟨start, stop⟩ := pr
    have hflat : (((pySlice g start stop).map (fun r => p r.appid r.name)).map
        (renderRow columns)) = batchRows g columns p start stop := by
      simp [batchRows, List.map_map]
    have hlast : lastIdxWrite (some (pyPrintLine stop)) (rest.map Prod.snd) =
        lastIdxWrite st.indexFile ((stop :: rest.map Prod.snd)) := by
      cases h : rest.map Prod.snd with
      | nil => simp [lastIdxWrite, h]
      | cons a l =>
        cases h2 : (a :: l).getLast? with
        | none => simp [List.getLast?_eq_getLast] at h2
        | some t => simp [lastIdxWrite, h, List.getLast?_cons_cons, h2]
    simp only [runBatches, get_app_data_pure, ih, List.flatMap_cons, List.map_cons]
    rw [hflat] at *
    simp [hlast, List.append_assoc]

/-! ## Arithmetic of the batch grid -/

theorem length_arange (b e s : Int) : (arange b e s).length = arangeLen b e s := by
  simp [arange]

theorem arange_elt_lt (b e s : Int) (hs : 1 ≤ s) {i : Nat}
    (h : i < arangeLen b e s) : b + s * i < e := by
  unfold arangeLen at h
  by_cases hbe : e ≤ b
  · simp [hbe] at h
  · simp only [hbe, if_neg, ite_false] at h
    have hi : i ≤ (e - b - 1).toNat / s.toNat := Nat.lt_succ_iff.mp h
    have h1 : s.toNat * i ≤ s.toNat * ((e - b - 1).toNat / s.toNat) :=
      Nat.mul_le_mul_left _ hi
    have h2 : s.toNat * ((e - b - 1).toNat / s.toNat) ≤ (e - b - 1).toNat := by
      rw [Nat.mul_comm]; exact Nat.div_mul_le_self _ _
    have h3 : s.toNat * i ≤ (e - b - 1).toNat := le_trans h1 h2
    have h4 : ((s.toNat : Int)) * (i : Int) ≤ ((e - b - 1).toNat : Int) := by
      exact_mod_cast h3
    rw [Int.toNat_of_nonneg (by omega : (0:Int) ≤ s)] at h4
    rw [Int.toNat_of_nonneg (by omega : (0:Int) ≤ e - b - 1)] at h4
    linarith

theorem arange_end_le (b e s : Int) (hs : 1 ≤ s) :
    e ≤ b + s * (arangeLen b e s : Int) := by
  unfold arangeLen
  by_cases hbe : e ≤ b
  · simp only [hbe, ite_true]
    simpa using le_trans hbe (by omega)
  · simp only [hbe, ite_false]
    have hS0 : 0 < s.toNat := by omega
    have h1 := Nat.div_add_mod (e - b - 1).toNat s.toNat
    have h2 := Nat.mod_lt (e - b - 1).toNat hS0
    have h3 : (e - b - 1).toNat < s.toNat * ((e - b - 1).toNat / s.toNat) + s.toNat := by
      omega
    have h4 : ((e - b - 1).toNat : Int) <
        (s.toNat : Int) * (((e - b - 1).toNat / s.toNat : Nat) : Int) + (s.toNat : Int) := by
      exact_mod_cast h3
    rw [Int.toNat_of_nonneg (by omega : (0:Int) ≤ s)] at h4
    rw [Int.toNat_of_nonneg (by omega : (0:Int) ≤ e - b - 1)] at h4
    rw [Nat.cast_add, Nat.cast_one]
    linarith

theorem arangeLen_shift (b e s : Int) (hs : 1 ≤ s) (k : Nat)
    (hk : k ≤ arangeLen b e s) :
    arangeLen (b + s * k) e s = arangeLen b e s - k := by
  by_cases hbe2 : e ≤ b + s * k
  · have hge : arangeLen b e s ≤ k := by
      by_contra hlt
      exact absurd (arange_elt_lt b e s hs (Nat.lt_of_not_le hlt)) (by omega)
    have hk' : arangeLen b e s = k := le_antisymm hge hk
    have hL : arangeLen (b + s * k) e s = 0 := by
      unfold arangeLen; simp [hbe2]
    omega
  · have hlt2 : b + s * k < e := lt_of_not_le hbe2
    have hble : b < e := by
      have : (0:Int) ≤ s * k := by positivity
      linarith
    have hkn : k < arangeLen b e s := by
      by_contra hge
      have hk' : k = arangeLen b e s := le_antisymm hk (Nat.le_of_not_lt hge)
      have h5 := arange_end_le b e s hs
      rw [← hk'] at h5
      exact absurd h5 (by linarith)
    have hsk : s * (k : Int) = ((s.toNat * k : Nat) : Int) := by
      rw [Nat.cast_mul, Int.toNat_of_nonneg (by omega : (0:Int) ≤ s)]
    have hX : e - b - 1 = (((e - b - 1).toNat : Nat) : Int) :=
      (Int.toNat_of_nonneg (by omega)).symm
    -- the numerator shifts down by s.toNat * k
    have hnum : (e - (b + s * k) - 1).toNat = (e - b - 1).toNat - s.toNat * k := by
      have h6 : e - (b + s * k) - 1 =
          (((e - b - 1).toNat : Nat) : Int) - ((s.toNat * k : Nat) : Int) := by
        rw [← hsk, ← hX]; ring
      rw [h6, Int.toNat_sub]
    have hmul_le : s.toNat * k ≤ (e - b - 1).toNat := by
      have h7 : ((s.toNat * k : Nat) : Int) ≤ ((e - b - 1).toNat : Int) := by
        rw [← hsk, ← hX]; linarith
      exact_mod_cast h7
    have hkq : k ≤ (e - b - 1).toNat / s.toNat := by
      have h8 : arangeLen b e s = (e - b - 1).toNat / s.toNat + 1 := by
        unfold arangeLen; simp [not_le.mpr hble]
      omega
    have hL2 : arangeLen (b + s * k) e s =
        (e - b - 1).toNat / s.toNat + 1 - k := by
      unfold arangeLen
      simp only [not_le.mpr hlt2, ite_false]
      rw [hnum, Nat.sub_mul_div _ _ _ hmul_le]
      omega
    have h8 : arangeLen b e s = (e - b - 1).toNat / s.toNat + 1 := by
      unfold arangeLen; simp [not_le.mpr hble]
    omega

theorem arange_drop (b e s : Int) (hs : 1 ≤ s) (k : Nat)
    (hk : k ≤ arangeLen b e s) :
    arange (b + s * k) e s = (arange b e s).drop k := by
  apply List.ext_get
  · simp [arange, arangeLen_shift b e s hs k hk]
  · intro n h1 h2
    simp only [arange, List.get_eq_getElem, List.getElem_map, List.getElem_range,
      List.getElem_drop]
    push_cast
    ring

theorem batchGrid_length (b e s : Int) :
    (batchGrid b e s).length = arangeLen b e s + 1 := by
  unfold batchGrid
  simp [arange]

theorem batchGrid_get (b e s : Int) (hs : 1 ≤ s) (k : Nat)
    (hk : k ≤ arangeLen b e s) :
    (batchGrid b e s).get ⟨k, by rw [batchGrid_length]; omega⟩ =
      min (b + s * k) e := by
  simp only [List.get_eq_getElem]
  rcases Nat.lt_or_ge k (arangeLen b e s) with hlt | hge
  · have hki : k < (arange b e s).length := by rw [length_arange]; exact hlt
    unfold batchGrid
    rw [List.getElem_append_left hki]
    have hval : (arange b e s).get ⟨k, hki⟩ = b + s * k := by
      simp [arange, List.getElem_map, List.getElem_range]
    simp only [List.get_eq_getElem] at hval
    rw [hval]
    exact (min_eq_left (le_of_lt (arange_elt_lt b e s hs hlt))).symm
  · have hk' : k = arangeLen b e s := le_antisymm hk hge
    subst hk'
    unfold batchGrid
    rw [List.getElem_append_right (by rw [length_arange])]
    simp only [length_arange, Nat.sub_self, List.getElem_singleton]
    exact (min_eq_right (arange_end_le b e s hs)).symm

theorem batchPairs_drop : ∀ (k : Nat) (xs : List Int),
    batchPairs (xs.drop k) = (batchPairs xs).drop k := by
  intro k
  induction k with
  | zero => intro xs; rfl
  | succ k ih =>
    intro xs
    cases xs with
    | nil => simp [batchPairs]
    | cons x xs' =>
      cases xs' with
      | nil => simp [batchPairs, List.drop_nil]
      | cons y ys =>
        have h1 : (x :: y :: ys).drop (k + 1) = (y :: ys).drop k := rfl
        have h2 : batchPairs (x :: y :: ys) = (x, y) :: batchPairs (y :: ys) := rfl
        rw [h1, h2, List.drop_succ_cons, ih]

/-- The boundary array `batches` is strictly increasing when the batch size is
at least 1. -/
theorem batchGrid_chain_lt (b e s : Int) (hs : 1 ≤ s) :
    List.Chain' (· < ·) (batchGrid b e s) := by
  unfold batchGrid
  rw [List.chain'_append]
  refine ⟨?_, List.chain'_singleton e, ?_⟩
  · rw [List.chain'_iff_get]
    intro i h
    simp only [arange, List.length_map, List.length_range] at h
    simp only [arange, List.get_eq_getElem, List.getElem_map, List.getElem_range]
    push_cast
    nlinarith [hs]
  · intro x hx y hy
    simp only [List.head?_cons, Option.mem_def, Option.some.injEq] at hy
    subst hy
    have hmem : x ∈ arange b e s := List.mem_of_mem_getLast? hx
    simp only [arange, List.mem_map, List.mem_range] at hmem
    obtain ⟨i, hi, rfl⟩ := hmem
    exact arange_elt_lt b e s hs hi

/-- Slices over adjacent cut points concatenate. -/
theorem pySlice_append (g : List α) (a m c : Int) (_h0 : 0 ≤ a) (h1 : a ≤ m)
    (h2 : m ≤ c) : pySlice g a m ++ pySlice g m c = pySlice g a c := by
  unfold pySlice
  have ha : a.toNat ≤ m.toNat := Int.toNat_le_toNat h1
  have hm : m.toNat ≤ c.toNat := Int.toNat_le_toNat h2
  have hdrop : g.drop m.toNat = (g.drop a.toNat).drop (m.toNat - a.toNat) := by
    rw [List.drop_drop]
    congr 1
    omega
  rw [hdrop]
  have hsum : c.toNat - a.toNat = (m.toNat - a.toNat) + (c.toNat - m.toNat) := by
    omega
  rw [hsum, List.take_add]

/-- A chain of lower bounds reaches the last element. -/
theorem chain_le_getLast : ∀ (ys : List Int) (y : Int),
    List.Chain (· ≤ ·) y ys → y ≤ (y :: ys).getLast (by simp) := by
  intro ys
  induction ys with
  | nil => intro y _; simp [List.getLast]
  | cons z zs ih =>
    intro y hch
    rw [List.chain_cons] at hch
    calc y ≤ z := hch.1
      _ ≤ (z :: zs).getLast (by simp) := ih z hch.2
      _ = ((y :: z :: zs).getLast (by simp)) := by
        rw [List.getLast_cons_cons]

/-- Over a weakly increasing non-negative boundary list, the batch slices
concatenate to the single slice from the first boundary to the last. -/
theorem flat_slices (g : List Entity) (columns : List String)
    (p : Int → String → Record) :
    ∀ (xs : List Int) (x : Int), 0 ≤ x → List.Chain (· ≤ ·) x xs →
      (batchPairs (x :: xs)).flatMap (fun pr => batchRows g columns p pr.1 pr.2) =
        batchRows g columns p x ((x :: xs).getLast (by simp)) := by
  intro xs
  induction xs with
  | nil =>
    intro x _ _
    simp [batchPairs, batchRows, pySlice, List.getLast]
  | cons y ys ih =>
    intro x hx hch
    rw [List.chain_cons] at hch
    have hpairs : batchPairs (x :: y :: ys) = (x, y) :: batchPairs (y :: ys) := rfl
    rw [hpairs, List.flatMap_cons, ih y (le_trans hx hch.1) hch.2,
      List.getLast_cons_cons]
    have hy_last : y ≤ (y :: ys).getLast (by simp) := chain_le_getLast ys y hch.2
    unfold batchRows
    rw [← List.map_append, pySlice_append g x y _ hx hch.1 hy_last]

theorem batchPairs_map_snd (xs : List Int) :
    (batchPairs xs).map Prod.snd = xs.tail := by
  unfold batchPairs
  exact List.map_snd_zip xs xs.tail (by cases xs <;> simp)

theorem arangeLen_pos (b e s : Int) (hlt : b < e) : arangeLen b e s ≠ 0 := by
  unfold arangeLen
  simp [not_le.mpr hlt]

theorem arange_eq_cons (b e s : Int) (hlt : b < e) :
    arange b e s = b :: (List.range (arangeLen b e s - 1)).map
      (fun i : Nat => b + s * (((i + 1 : Nat)) : Int)) := by
  obtain ⟨m, hm⟩ := Nat.exists_eq_succ_of_ne_zero (arangeLen_pos b e s hlt)
  unfold arange
  rw [hm, List.range_succ_eq_map, List.map_cons, List.map_map]
  simp [Function.comp]

theorem batchGrid_tail_getLast? (b e s : Int) (hlt : b < e) :
    (batchGrid b e s).tail.getLast? = some e := by
  rw [batchGrid, arange_eq_cons b e s hlt]
  simp [List.getLast?_append]

/-- Closed form of a completed `process_batches` call under a pure parser and
an explicit non-sentinel end: the data file gains exactly the rendered rows of
the global list slice from begin to end, the checkpoint file ends holding the
end index (untouched if there was no batch), and the persisted checkpoint
values are the tail of the boundary array. -/
theorem process_batches_pure_run (p : Int → String → Record) (L g : List Entity)
    (columns : List String) (b e s : Int) (st : SinkState)
    (hs : 1 ≤ s) (h0 : 0 ≤ b) (hbe : b ≤ e) :
    process_batches (pureParser p) L g columns b e s st =
      ({ dataFile := st.dataFile ++ batchRows g columns p b e,
         indexFile := if b < e then some (pyPrintLine e) else st.indexFile,
         idxHistory := st.idxHistory ++ (batchGrid b e s).tail }, none) := by
  have hne : e ≠ -1 := by omega
  have hflat : (batchPairs (batchGrid b e s)).flatMap
      (fun pr => batchRows g columns p pr.1 pr.2) = batchRows g columns p b e := by
    rcases lt_or_eq_of_le hbe with hlt | heq
    · have hgrid : batchGrid b e s =
          b :: ((List.range (arangeLen b e s - 1)).map
            (fun i : Nat => b + s * (((i + 1 : Nat)) : Int)) ++ [e]) := by
        rw [batchGrid, arange_eq_cons b e s hlt]
        simp
      have hch' : List.Chain' (· ≤ ·) (batchGrid b e s) :=
        (batchGrid_chain_lt b e s hs).imp (fun _ _ h => le_of_lt h)
      rw [hgrid] at hch'
      have hch : List.Chain (· ≤ ·) b
          ((List.range (arangeLen b e s - 1)).map
            (fun i : Nat => b + s * (((i + 1 : Nat)) : Int)) ++ [e]) := hch'
      rw [hgrid, flat_slices g columns p _ b h0 hch]
      congr 1
      exact List.getLast_concat
        (b :: (List.range (arangeLen b e s - 1)).map
          (fun i : Nat => b + s * (((i + 1 : Nat)) : Int)))
    · subst heq
      have h1 : arangeLen b b s = 0 := by unfold arangeLen; simp
      have h2 : batchGrid b b s = [b] := by
        rw [batchGrid]
        unfold arange
        rw [h1]
        simp
      rw [h2]
      simp [batchPairs, batchRows, pySlice]
  have hsnd : (batchPairs (batchGrid b e s)).map Prod.snd = (batchGrid b e s).tail :=
    batchPairs_map_snd _
  have hidx : lastIdxWrite st.indexFile ((batchGrid b e s).tail) =
      (if b < e then some (pyPrintLine e) else st.indexFile) := by
    rcases lt_or_eq_of_le hbe with hlt | heq
    · rw [if_pos hlt]
      unfold lastIdxWrite
      rw [batchGrid_tail_getLast? b e s hlt]
    · subst heq
      rw [if_neg (lt_irrefl b)]
      have h1 : arangeLen b b s = 0 := by unfold arangeLen; simp
      have h2 : batchGrid b b s = [b] := by
        rw [batchGrid]
        unfold arange
        rw [h1]
        simp
      rw [h2]
      rfl
  simp only [process_batches, if_neg hne]
  rw [runBatches_pure, hflat, hsnd, hidx]

theorem batchGrid_min (e s : Int) : batchGrid e e s = [e] := by
  have h1 : arangeLen e e s = 0 := by unfold arangeLen; simp
  rw [batchGrid]
  unfold arange
  rw [h1]
  simp

theorem batchPairs_length (b e s : Int) :
    (batchPairs (batchGrid b e s)).length = arangeLen b e s := by
  unfold batchPairs
  rw [List.length_zip, List.length_tail, batchGrid_length]
  simp

/-- The batch pairs of a run restarted at boundary `k` of the original grid
are exactly the pairs the original run had left. -/
theorem resumed_pairs (b e s : Int) (hs : 1 ≤ s) (k : Nat)
    (hk : k ≤ arangeLen b e s) :
    batchPairs (batchGrid (min (b + s * k) e) e s) =
      (batchPairs (batchGrid b e s)).drop k := by
  rcases Nat.lt_or_ge k (arangeLen b e s) with hlt | hge
  · have hck : min (b + s * k) e = b + s * k :=
      min_eq_left (le_of_lt (arange_elt_lt b e s hs hlt))
    rw [hck]
    have h1 : batchGrid (b + s * k) e s = (batchGrid b e s).drop k := by
      rw [batchGrid, arange_drop b e s hs k hk, batchGrid,
        List.drop_append_of_le_length (by rw [length_arange]; exact hk)]
    rw [h1, batchPairs_drop]
  · have hk' : k = arangeLen b e s := le_antisymm hk hge
    subst hk'
    rw [min_eq_right (arange_end_le b e s hs), batchGrid_min]
    rw [List.drop_eq_nil_of_le (by rw [batchPairs_length])]
    simp [batchPairs]

theorem getLast?_take {α : Type _} {l : List α} {k : Nat} (hk0 : 0 < k)
    (hk : k ≤ l.length) :
    (l.take k).getLast? = some (l.get ⟨k - 1, by omega⟩) := by
  have hlen : (l.take k).length = k := by
    rw [List.length_take]; omega
  simp only [List.get_eq_getElem]
  rw [List.getLast?_eq_getElem?, hlen, List.getElem?_take,
    if_pos (by omega : k - 1 < k), List.getElem?_eq_getElem (by omega)]

/-- After `k` completed batches the checkpoint file holds the k-th boundary of
the grid. -/
theorem take_pairs_idx (b e s : Int) (hs : 1 ≤ s) (k : Nat)
    (hk : k ≤ arangeLen b e s) (hk0 : 0 < k) (init : Option String) :
    lastIdxWrite init (((batchPairs (batchGrid b e s)).take k).map Prod.snd) =
      some (pyPrintLine (min (b + s * k) e)) := by
  rw [List.map_take, batchPairs_map_snd]
  have htl : (batchGrid b e s).tail.length = arangeLen b e s := by
    rw [List.length_tail, batchGrid_length]; simp
  have hget : ((batchGrid b e s).tail.take k).getLast? =
      some ((batchGrid b e s).tail.get ⟨k - 1, by omega⟩) :=
    getLast?_take hk0 (by omega)
  have hval : (batchGrid b e s).tail.get ⟨k - 1, by rw [htl]; omega⟩ =
      min (b + s * k) e := by
    simp only [List.get_eq_getElem]
    rw [List.getElem_tail]
    have hk1 : k - 1 + 1 = k := by omega
    have hg := batchGrid_get b e s hs k hk
    simp only [List.get_eq_getElem] at hg
    simp only [hk1]
    exact hg
  unfold lastIdxWrite
  rw [hget, hval]

theorem runBatches_pure_append (p : Int → String → Record) (g : List Entity)
    (columns : List String) (l₁ l₂ : List (Int × Int)) (st : SinkState) :
    runBatches (pureParser p) g columns l₂
        (runBatches (pureParser p) g columns l₁ st).1 =
      runBatches (pureParser p) g columns (l₁ ++ l₂) st := by
  simp only [runBatches_pure]
  simp [lastIdxWrite_append, List.append_assoc, List.flatMap_append, List.map_append]

/-! ## Claim theorems -/

/-- C1: resumability.  For a deterministic parser, batch size at least 1 and
`0 ≤ begin ≤ end ≤ len(L)`, stopping the run after any `k` completed batches
persists the k-th grid boundary as the checkpoint, re-invoking
`process_batches` with `begin` set to that persisted checkpoint produces
exactly the final sink files of the uninterrupted run, and the uninterrupted
run appends each entity of the slice `[begin, end)` once, in order — no row
duplicated, no entity skipped. -/
theorem claim_C1_resumability (p : Int → String → Record) (L g : List Entity)
    (columns : List String) (begin_ end_ batchsize : Int) (k : Nat)
    (st : SinkState) (hb : 1 ≤ batchsize) (h0 : 0 ≤ begin_)
    (hbe : begin_ ≤ end_) (_hlen : end_ ≤ (L.length : Int))
    (hk : k ≤ arangeLen begin_ end_ batchsize) :
    (0 < k →
      (runBatches (pureParser p) g columns
          ((batchPairs (batchGrid begin_ end_ batchsize)).take k) st).1.indexFile =
        some (pyPrintLine (min (begin_ + batchsize * k) end_))) ∧
    process_batches (pureParser p) L g columns
        (min (begin_ + batchsize * k) end_) end_ batchsize
        (runBatches (pureParser p) g columns
          ((batchPairs (batchGrid begin_ end_ batchsize)).take k) st).1 =
      process_batches (pureParser p) L g columns begin_ end_ batchsize st ∧
    (process_batches (pureParser p) L g columns begin_ end_ batchsize st).1.dataFile =
      st.dataFile ++ (pySlice g begin_ end_).map
        (fun r => renderRow columns (p r.appid r.name)) := by
  have hne : end_ ≠ -1 := by omega
  have hck0 : (0 : Int) ≤ min (begin_ + batchsize * k) end_ := by
    have hm : (0 : Int) ≤ batchsize * k := by positivity
    exact le_min (by omega) (by omega)
  have hckne : min (begin_ + batchsize * k) end_ ≠ -1 := by omega
  refine ⟨?_, ?_, ?_⟩
  · intro hk0
    rw [runBatches_pure]
    exact take_pairs_idx begin_ end_ batchsize hb k hk hk0 st.indexFile
  · simp only [process_batches, if_neg hne, if_neg hckne]
    rw [resumed_pairs begin_ end_ batchsize hb k hk, runBatches_pure_append,
      List.take_append_drop]
  · rw [process_batches_pure_run p L g columns begin_ end_ batchsize st hb h0 hbe]
    rfl

/-- Witness for C1 at a concrete instance: two entities, batch size 1,
interrupting after the first of two batches. -/
theorem claim_C1_resumability_witness :
    (0 < 1 →
      (runBatches (pureParser (fun a n => [("name", n), ("appid", intStr a)]))
          [⟨10, "A"⟩, ⟨20, "B"⟩] ["appid", "name"]
          ((batchPairs (batchGrid 0 2 1)).take 1)
          ⟨[["appid", "name"]], some "0\n", []⟩).1.indexFile =
        some (pyPrintLine (min (0 + 1 * (1 : Nat)) 2))) ∧
    process_batches (pureParser (fun a n => [("name", n), ("appid", intStr a)]))
        [⟨10, "A"⟩, ⟨20, "B"⟩] [⟨10, "A"⟩, ⟨20, "B"⟩] ["appid", "name"]
        (min (0 + 1 * (1 : Nat)) 2) 2 1
        (runBatches (pureParser (fun a n => [("name", n), ("appid", intStr a)]))
          [⟨10, "A"⟩, ⟨20, "B"⟩] ["appid", "name"]
          ((batchPairs (batchGrid 0 2 1)).take 1)
          ⟨[["appid", "name"]], some "0\n", []⟩).1 =
      process_batches (pureParser (fun a n => [("name", n), ("appid", intStr a)]))
        [⟨10, "A"⟩, ⟨20, "B"⟩] [⟨10, "A"⟩, ⟨20, "B"⟩] ["appid", "name"] 0 2 1
        ⟨[["appid", "name"]], some "0\n", []⟩ ∧
    (process_batches (pureParser (fun a n => [("name", n), ("appid", intStr a)]))
        [⟨10, "A"⟩, ⟨20, "B"⟩] [⟨10, "A"⟩, ⟨20, "B"⟩] ["appid", "name"] 0 2 1
        ⟨[["appid", "name"]], some "0\n", []⟩).1.dataFile =
      [["appid", "name"]] ++ (pySlice ([⟨10, "A"⟩, ⟨20, "B"⟩] : List Entity) 0 2).map
        (fun r => renderRow ["appid", "name"]
          ((fun a n => [("name", n), ("appid", intStr a)]) r.appid r.name)) :=
  claim_C1_resumability (fun a n => [("name", n), ("appid", intStr a)])
    [⟨10, "A"⟩, ⟨20, "B"⟩] [⟨10, "A"⟩, ⟨20, "B"⟩] ["appid", "name"] 0 2 1 1
    ⟨[["appid", "name"]], some "0\n", []⟩ (by decide) (by decide) (by decide)
    (by decide) (by decide)

/-- C2 fails as stated: with `begin = end` (allowed by its precondition
`0 ≤ begin ≤ end ≤ len`), the run completes without error but executes no
batch, so the checkpoint file keeps its previous content instead of holding
`end`.  Here `begin = end = 1` over a one-entity list with a prior checkpoint
of 0: afterwards the file still holds `0`, not `1`. -/
theorem claim_C2_counterexample :
    (process_batches (pureParser (fun _ n => [("name", n)]))
        ([⟨1, "A"⟩] : List Entity) [⟨1, "A"⟩] ["name"] 1 1 1
        ⟨[["name"]], some "0\n", []⟩).1.indexFile = some "0\n" ∧
    some "0\n" ≠ some (pyPrintLine 1) := by
  constructor
  · rfl
  · decide

/-- C2 (amended): under the stated preconditions a completed run appends
exactly the rendered rows of the list slice `[begin, end)` — `end - begin`
data rows — and, provided at least one batch ran (`begin < end`), leaves the
checkpoint file holding exactly `end`; in the degenerate `begin = end` case no
batch runs and the checkpoint file is untouched.  Stated for the module's call
pattern, where the `app_list` argument is the module-level global list. -/
theorem claim_C2_completion (p : Int → String → Record) (L : List Entity)
    (columns : List String) (begin_ end_ batchsize : Int) (st : SinkState)
    (hb : 1 ≤ batchsize) (h0 : 0 ≤ begin_) (hbe : begin_ ≤ end_)
    (hlen : end_ ≤ (L.length : Int)) :
    (process_batches (pureParser p) L L columns begin_ end_ batchsize st).2 = none ∧
    (process_batches (pureParser p) L L columns begin_ end_ batchsize st).1.dataFile =
      st.dataFile ++ (pySlice L begin_ end_).map
        (fun r => renderRow columns (p r.appid r.name)) ∧
    (process_batches (pureParser p) L L columns begin_ end_ batchsize
        st).1.dataFile.length = st.dataFile.length + (end_ - begin_).toNat ∧
    (process_batches (pureParser p) L L columns begin_ end_ batchsize st).1.indexFile =
      (if begin_ < end_ then some (pyPrintLine end_) else st.indexFile) := by
  rw [process_batches_pure_run p L L columns begin_ end_ batchsize st hb h0 hbe]
  refine ⟨rfl, rfl, ?_, rfl⟩
  have hslice : (pySlice L begin_ end_).length = (end_ - begin_).toNat := by
    have h1 : begin_.toNat ≤ end_.toNat := Int.toNat_le_toNat hbe
    have h2 : end_.toNat ≤ L.length := by
      have := Int.toNat_le_toNat hlen
      simpa using this
    simp only [pySlice, List.length_take, List.length_drop]
    omega
  simp [batchRows, hslice]

/-- Witness for C2 (amended) at a concrete instance: three entities, batch
size 2, begin 0, end 3. -/
theorem claim_C2_completion_witness :
    (process_batches (pureParser (fun a _ => [("id", intStr a)]))
        ([⟨1, "A"⟩, ⟨2, "B"⟩, ⟨3, "C"⟩] : List Entity)
        [⟨1, "A"⟩, ⟨2, "B"⟩, ⟨3, "C"⟩] ["id"] 0 3 2
        ⟨[["id"]], none, []⟩).2 = none ∧
    (process_batches (pureParser (fun a _ => [("id", intStr a)]))
        ([⟨1, "A"⟩, ⟨2, "B"⟩, ⟨3, "C"⟩] : List Entity)
        [⟨1, "A"⟩, ⟨2, "B"⟩, ⟨3, "C"⟩] ["id"] 0 3 2
        ⟨[["id"]], none, []⟩).1.dataFile =
      [["id"]] ++ (pySlice ([⟨1, "A"⟩, ⟨2, "B"⟩, ⟨3, "C"⟩] : List Entity) 0 3).map
        (fun r => renderRow ["id"]
          ((fun a _ => [("id", intStr a)]) r.appid r.name)) ∧
    (process_batches (pureParser (fun a _ => [("id", intStr a)]))
        ([⟨1, "A"⟩, ⟨2, "B"⟩, ⟨3, "C"⟩] : List Entity)
        [⟨1, "A"⟩, ⟨2, "B"⟩, ⟨3, "C"⟩] ["id"] 0 3 2
        ⟨[["id"]], none, []⟩).1.dataFile.length = 1 + ((3 : Int) - 0).toNat ∧
    (process_batches (pureParser (fun a _ => [("id", intStr a)]))
        ([⟨1, "A"⟩, ⟨2, "B"⟩, ⟨3, "C"⟩] : List Entity)
        [⟨1, "A"⟩, ⟨2, "B"⟩, ⟨3, "C"⟩] ["id"] 0 3 2
        ⟨[["id"]], none, []⟩).1.indexFile =
      (if (0 : Int) < 3 then some (pyPrintLine 3) else none) :=
  claim_C2_completion (fun a _ => [("id", intStr a)])
    [⟨1, "A"⟩, ⟨2, "B"⟩, ⟨3, "C"⟩] ["id"] 0 3 2 ⟨[["id"]], none, []⟩
    (by decide) (by decide) (by decide) (by decide)

/-- C3 fails on the code: with the sentinel `end = -1` the source sets
`end = len(app_list) + 1`, not `len(app_list)`.  On a two-entity list with
`begin = 0`, `batchsize = 1` the generated boundaries are 0,1,2,3, the run
persists checkpoints 1, 2, 3 and finishes with the checkpoint file holding 3,
although only indices 0 and 1 exist; the claim (and the function's own
docstring, which says the default is the end of the list) requires a final
checkpoint of 2. -/
theorem claim_C3_sentinel_default :
    (process_batches (pureParser (fun _ n => [("name", n)]))
        ([⟨1, "A"⟩, ⟨2, "B"⟩] : List Entity) [⟨1, "A"⟩, ⟨2, "B"⟩] ["name"]
        0 (-1) 1 ⟨[["name"]], some "0\n", []⟩).1 =
      ⟨[["name"], ["A"], ["B"]], some (pyPrintLine (2 + 1)), [1, 2, 3]⟩ ∧
    pyPrintLine (2 + 1) ≠ pyPrintLine 2 := by
  constructor
  · rfl
  · decide

theorem runBatches_abort {ε : Type} (parser : Int → String → Except ε Record)
    (g : List Entity) (columns : List String) :
    ∀ (l₁ : List (Int × Int)) (s t : Int) (l₂ : List (Int × Int))
      (st : SinkState) (e : ε),
      (∀ pr ∈ l₁, ∃ ds, get_app_data g pr.1 pr.2 parser = .ok ds) →
      get_app_data g s t parser = .error e →
      runBatches parser g columns (l₁ ++ (s, t) :: l₂) st =
          ((runBatches parser g columns l₁ st).1, some e) ∧
        (runBatches parser g columns l₁ st).2 = none := by
  intro l₁
  induction l₁ with
  | nil =>
    intro s t l₂ st e _ herr
    exact ⟨by simp [runBatches, herr], rfl⟩
  | cons pr rest ih =>
    intro s t l₂ st e hok herr
    obtain ⟨start, stop⟩ := pr
    obtain ⟨ds, hds⟩ := hok (start, stop) (by simp)
    have hok' : ∀ pr ∈ rest, ∃ ds, get_app_data g pr.1 pr.2 parser = .ok ds :=
      fun pr hpr => hok pr (by simp [hpr])
    constructor
    · simp only [List.cons_append, runBatches, hds]
      exact (ih s t l₂ _ e hok' herr).1
    · simp only [runBatches, hds]
      exact (ih s t l₂ _ e hok' herr).2

/-- C4: atomic batch commit on fetch failure.  If the batches before position
`k` all fetch successfully and the batch `[s, t)` at position `k` raises, the
exception propagates out of `process_batches` and the files are left exactly
as they were after the `k` completed batches: no row of the failed batch is in
the data file and the checkpoint file still holds the value persisted after
the last completed batch. -/
theorem claim_C4_atomic_abort {ε : Type} (parser : Int → String → Except ε Record)
    (L g : List Entity) (columns : List String) (begin_ end_ batchsize : Int)
    (st : SinkState) (l₁ : List (Int × Int)) (s t : Int) (l₂ : List (Int × Int))
    (e : ε) (hend : end_ ≠ -1)
    (hsplit : batchPairs (batchGrid begin_ end_ batchsize) = l₁ ++ (s, t) :: l₂)
    (hok : ∀ pr ∈ l₁, ∃ ds, get_app_data g pr.1 pr.2 parser = .ok ds)
    (herr : get_app_data g s t parser = .error e) :
    process_batches parser L g columns begin_ end_ batchsize st =
        ((runBatches parser g columns l₁ st).1, some e) ∧
      (runBatches parser g columns l₁ st).2 = none := by
  simp only [process_batches, if_neg hend]
  rw [hsplit]
  exact runBatches_abort parser g columns l₁ s t l₂ st e hok herr

/-- Witness for C4: two one-entity batches, the parser raising on the second
entity; the run aborts with that exception, keeps the first batch's row and
the checkpoint value 1 written after it. -/
theorem claim_C4_atomic_abort_witness :
    process_batches
        (fun a n => if a = 2 then Except.error "boom" else Except.ok [("name", n)])
        ([⟨1, "A"⟩, ⟨2, "B"⟩] : List Entity) [⟨1, "A"⟩, ⟨2, "B"⟩] ["name"]
        0 2 1 ⟨[["name"]], some "0\n", []⟩ =
      ((runBatches
          (fun a n => if a = 2 then Except.error "boom" else Except.ok [("name", n)])
          [⟨1, "A"⟩, ⟨2, "B"⟩] ["name"] [((0 : Int), (1 : Int))]
          ⟨[["name"]], some "0\n", []⟩).1, some "boom") ∧
      (runBatches
          (fun a n => if a = 2 then Except.error "boom" else Except.ok [("name", n)])
          [⟨1, "A"⟩, ⟨2, "B"⟩] ["name"] [((0 : Int), (1 : Int))]
          ⟨[["name"]], some "0\n", []⟩).2 = none :=
  claim_C4_atomic_abort
    (fun a n => if a = 2 then Except.error "boom" else Except.ok [("name", n)])
    [⟨1, "A"⟩, ⟨2, "B"⟩] [⟨1, "A"⟩, ⟨2, "B"⟩] ["name"] 0 2 1
    ⟨[["name"]], some "0\n", []⟩ [((0 : Int), (1 : Int))] 1 2 [] "boom"
    (by decide) rfl
    (by
      intro pr hpr
      simp only [List.mem_singleton] at hpr
      subst hpr
      exact ⟨[[("name", "A")]], rfl⟩)
    rfl

/-- C6: checkpoint monotonicity.  Over a single completed run with an explicit
end, the sequence of values persisted to the checkpoint file is exactly the
sequence of batch stop boundaries, in order; that sequence is strictly
increasing; and an explicit `reset_index` leaves the stored checkpoint reading
as 0. -/
theorem claim_C6_monotonicity (p : Int → String → Record) (L g : List Entity)
    (columns : List String) (begin_ end_ batchsize : Int) (st : SinkState)
    (f : Option String) (hb : 1 ≤ batchsize) (hend : 0 ≤ end_) :
    (process_batches (pureParser p) L g columns begin_ end_ batchsize
        st).1.idxHistory =
      st.idxHistory ++ (batchPairs (batchGrid begin_ end_ batchsize)).map Prod.snd ∧
    List.Chain' (· < ·)
      ((batchPairs (batchGrid begin_ end_ batchsize)).map Prod.snd) ∧
    get_index (reset_index f) = .ok 0 := by
  have hne : end_ ≠ -1 := by omega
  refine ⟨?_, ?_, ?_⟩
  · simp only [process_batches, if_neg hne]
    rw [runBatches_pure]
  · rw [batchPairs_map_snd]
    exact (batchGrid_chain_lt begin_ end_ batchsize hb).tail
  · show get_index (some (pyPrintLine 0)) = Except.ok 0
    rfl

/-- Witness for C6 at a concrete instance: begin 0, end 5, batch size 2. -/
theorem claim_C6_monotonicity_witness :
    (process_batches (pureParser (fun _ n => [("name", n)]))
        ([⟨1, "A"⟩] : List Entity) [⟨1, "A"⟩] ["name"] 0 5 2
        ⟨[["name"]], none, []⟩).1.idxHistory =
      [] ++ (batchPairs (batchGrid 0 5 2)).map Prod.snd ∧
    List.Chain' (· < ·) ((batchPairs (batchGrid 0 5 2)).map Prod.snd) ∧
    get_index (reset_index (some "7\n")) = .ok 0 :=
  claim_C6_monotonicity (fun _ n => [("name", n)]) [⟨1, "A"⟩] [⟨1, "A"⟩]
    ["name"] 0 5 2 ⟨[["name"]], none, []⟩ (some "7\n") (by decide) (by decide)

/-- C8 fails on the code: `get_app_data` iterates the module-level global
`app_list`, while the `app_list` parameter of `process_batches` only feeds the
sentinel default for `end`.  With an argument list of entities 10, 20 and a
global list of entities 1, 2, the rows written come from the global list, not
from the argument. -/
theorem claim_C8_global_list :
    (process_batches (pureParser (fun a n => [("appid", intStr a), ("name", n)]))
        ([⟨10, "X"⟩, ⟨20, "Y"⟩] : List Entity)
        ([⟨1, "G1"⟩, ⟨2, "G2"⟩] : List Entity)
        ["appid", "name"] 0 2 2 ⟨[["appid", "name"]], some "0\n", []⟩).1.dataFile =
      [["appid", "name"], ["1", "G1"], ["2", "G2"]] ∧
    ([["appid", "name"], ["1", "G1"], ["2", "G2"]] : List (List String)) ≠
      [["appid", "name"], ["10", "X"], ["20", "Y"]] := by
  constructor
  · rfl
  · decide

/-! ## Printing and parsing round-trip -/

theorem digitChar_props {m : Nat} (h : m < 10) :
    (Nat.digitChar m).isDigit = true ∧ (Nat.digitChar m).isWhitespace = false ∧
    Nat.digitChar m ≠ '\n' ∧ Nat.digitChar m ≠ '-' ∧ Nat.digitChar m ≠ '+' ∧
    (Nat.digitChar m).toNat - 48 = m := by
  interval_cases m <;> exact ⟨by decide, by decide, by decide, by decide,
    by decide, by decide⟩

theorem natReprAux_spec : ∀ (fuel n : Nat), n < fuel →
    (∀ c ∈ natReprAux fuel n, ∃ m, m < 10 ∧ c = Nat.digitChar m) ∧
    natReprAux fuel n ≠ [] ∧
    decDigitsVal (natReprAux fuel n) = n := by
  intro fuel
  induction fuel with
  | zero => intro n h; omega
  | succ fuel ih =>
    intro n h
    by_cases h10 : n < 10
    · refine ⟨?_, ?_, ?_⟩
      · intro c hc
        simp [natReprAux, h10] at hc
        exact ⟨n, h10, hc⟩
      · simp [natReprAux, h10]
      · simp [natReprAux, h10, decDigitsVal, (digitChar_props h10).2.2.2.2.2]
    · have hd : n / 10 < fuel := by
        have h1 : n / 10 < n := Nat.div_lt_self (by omega) (by omega)
        omega
      obtain ⟨ihmem, ihne, ihval⟩ := ih (n / 10) hd
      have hm10 : n % 10 < 10 := Nat.mod_lt _ (by omega)
      refine ⟨?_, ?_, ?_⟩
      · intro c hc
        simp only [natReprAux, if_neg h10, List.mem_append, List.mem_singleton] at hc
        rcases hc with hc | hc
        · exact ihmem c hc
        · exact ⟨n % 10, hm10, hc⟩
      · simp [natReprAux, h10]
      · simp only [natReprAux, if_neg h10]
        unfold decDigitsVal
        rw [List.foldl_append]
        unfold decDigitsVal at ihval
        simp only [List.foldl_cons, List.foldl_nil, ihval]
        rw [(digitChar_props hm10).2.2.2.2.2]
        omega

theorem natRepr_spec (n : Nat) :
    (∀ c ∈ natRepr n, ∃ m, m < 10 ∧ c = Nat.digitChar m) ∧
    natRepr n ≠ [] ∧ decDigitsVal (natRepr n) = n :=
  natReprAux_spec (n + 1) n (by omega)

theorem takeWhile_append_of_all {p : Char → Bool} :
    ∀ (l r : List Char), (∀ c ∈ l, p c = true) →
      List.takeWhile p (l ++ r) = l ++ List.takeWhile p r := by
  intro l
  induction l with
  | nil => intro r _; rfl
  | cons c cs ih =>
    intro r hall
    have hc : p c = true := hall c (by simp)
    simp only [List.cons_append, List.takeWhile_cons, hc, ite_true]
    rw [ih r (fun d hd => hall d (by simp [hd]))]

theorem natRepr_not_nl {n : Nat} {c : Char} (hc : c ∈ natRepr n) :
    (c != '\n') = true := by
  obtain ⟨m, hm, rfl⟩ := (natRepr_spec n).1 c hc
  simpa [bne_iff_ne] using (digitChar_props hm).2.2.1

theorem intStr_data (n : Int) : (intStr n).data =
    (if n < 0 then '-' :: natRepr (-n).toNat else natRepr n.toNat) := by
  unfold intStr
  by_cases h : n < 0 <;> simp [h]

theorem pyPrintLine_data (n : Int) : (pyPrintLine n).data =
    (if n < 0 then '-' :: natRepr (-n).toNat else natRepr n.toNat) ++ ['\n'] := by
  unfold pyPrintLine
  rw [String.data_append, intStr_data]

theorem readline_pyPrintLine (n : Int) : readline (pyPrintLine n) = pyPrintLine n := by
  unfold readline
  rw [pyPrintLine_data]
  have hall : ∀ c ∈ (if n < 0 then '-' :: natRepr (-n).toNat else natRepr n.toNat),
      (c != '\n') = true := by
    intro c hc
    by_cases h : n < 0
    · rw [if_pos h] at hc
      rcases List.mem_cons.mp hc with rfl | hc2
      · decide
      · exact natRepr_not_nl hc2
    · rw [if_neg h] at hc
      exact natRepr_not_nl hc
  rw [takeWhile_append_of_all _ _ hall]
  have hcontains : ((if n < 0 then '-' :: natRepr (-n).toNat
      else natRepr n.toNat) ++ ['\n']).contains '\n' = true := by
    by_cases h : n < 0 <;> simp [h]
  rw [if_pos hcontains]
  have htw : List.takeWhile (fun c => c != '\n') ['\n'] = [] := rfl
  rw [htw, List.append_nil, ← pyPrintLine_data]

theorem stripChars_body_newline (l : List Char) (hne : l ≠ [])
    (hd : ∀ c ∈ l, c.isWhitespace = false) :
    stripChars (l ++ ['\n']) = l := by
  unfold stripChars
  obtain ⟨c, cs, rfl⟩ := List.exists_cons_of_ne_nil hne
  have hc : c.isWhitespace = false := hd c (by simp)
  have h1 : List.dropWhile Char.isWhitespace ((c :: cs) ++ ['\n']) =
      (c :: cs) ++ ['\n'] := by
    simp [List.dropWhile_cons, hc]
  rw [h1]
  have h2 : ((c :: cs) ++ ['\n']).reverse = '\n' :: (c :: cs).reverse := by
    simp
  rw [h2]
  have h3 : List.dropWhile Char.isWhitespace ('\n' :: (c :: cs).reverse) =
      List.dropWhile Char.isWhitespace ((c :: cs).reverse) := by
    simp [List.dropWhile_cons]
  rw [h3]
  have h4 : List.dropWhile Char.isWhitespace ((c :: cs).reverse) =
      (c :: cs).reverse := by
    cases hrev : (c :: cs).reverse with
    | nil => rfl
    | cons d ds =>
      have hdmem : d ∈ (c :: cs) := by
        rw [← List.mem_reverse, hrev]; simp
      simp [List.dropWhile_cons, hd d hdmem]
  rw [h4, List.reverse_reverse]

theorem pyIntParse_pyPrintLine (n : Int) :
    pyIntParse (readline (pyPrintLine n)) = some n := by
  rw [readline_pyPrintLine]
  unfold pyIntParse
  rw [pyPrintLine_data]
  by_cases h : n < 0
  · rw [if_pos h]
    obtain ⟨hmem, hne, hval⟩ := natRepr_spec (-n).toNat
    have hstrip : stripChars (('-' :: natRepr (-n).toNat) ++ ['\n']) =
        '-' :: natRepr (-n).toNat := by
      apply stripChars_body_newline _ (by simp)
      intro c hc
      rcases List.mem_cons.mp hc with rfl | hc2
      · decide
      · obtain ⟨m, hm, rfl⟩ := hmem c hc2
        exact (digitChar_props hm).2.1
    rw [hstrip]
    dsimp only
    rw [if_pos rfl]
    have hdig : (natRepr (-n).toNat).all Char.isDigit = true := by
      rw [List.all_eq_true]
      intro c hc
      obtain ⟨m, hm, rfl⟩ := hmem c hc
      exact (digitChar_props hm).1
    unfold parseDigits
    rw [if_pos ⟨hne, hdig⟩, hval]
    dsimp only [Option.map]
    congr 1
    rw [Int.toNat_of_nonneg (by omega : (0:Int) ≤ -n)]
    ring
  · rw [if_neg h]
    obtain ⟨hmem, hne, hval⟩ := natRepr_spec n.toNat
    have hstrip : stripChars (natRepr n.toNat ++ ['\n']) = natRepr n.toNat := by
      apply stripChars_body_newline _ hne
      intro c hc
      obtain ⟨m, hm, rfl⟩ := hmem c hc
      exact (digitChar_props hm).2.1
    rw [hstrip]
    obtain ⟨c, cs, hcons⟩ := List.exists_cons_of_ne_nil hne
    rw [hcons]
    have hcprops : ∃ m, m < 10 ∧ c = Nat.digitChar m :=
      hmem c (by rw [hcons]; simp)
    obtain ⟨m, hm, rfl⟩ := hcprops
    dsimp only
    rw [if_neg (digitChar_props hm).2.2.2.1, if_neg (digitChar_props hm).2.2.2.2.1]
    have hdig : ((Nat.digitChar m :: cs)).all Char.isDigit = true := by
      rw [List.all_eq_true]
      intro d hd2
      obtain ⟨m2, hm2, rfl⟩ := hmem d (by rw [hcons]; exact hd2)
      exact (digitChar_props hm2).1
    unfold parseDigits
    rw [if_pos ⟨by simp, hdig⟩]
    rw [← hcons, hval]
    congr 1
    exact Int.toNat_of_nonneg (by omega)

theorem get_index_pyPrintLine (n : Int) :
    get_index (some (pyPrintLine n)) = .ok n := by
  unfold get_index
  dsimp only
  rw [pyIntParse_pyPrintLine]

/-- C5: checkpoint read.  A missing checkpoint file reads as 0; a file holding
what the checkpoint writer persisted for any integer reads back as exactly
that integer; and a present file whose first line does not parse as an integer
raises `ValueError` instead of silently returning 0, so absence and corruption
are distinguished. -/
theorem claim_C5_checkpoint_read :
    get_index none = .ok 0 ∧
    (∀ n : Int, get_index (some (pyPrintLine n)) = .ok n) ∧
    (∀ s : String, pyIntParse (readline s) = none →
      get_index (some s) = .error .valueError) := by
  refine ⟨rfl, get_index_pyPrintLine, ?_⟩
  intro s hs
  unfold get_index
  dsimp only
  rw [hs]

/-- Witness for C5: a corrupt checkpoint file raises rather than reading 0,
and a persisted negative integer round-trips. -/
theorem claim_C5_checkpoint_read_witness :
    get_index (some "steam\n") = .error .valueError ∧
    get_index (some (pyPrintLine (-7))) = .ok (-7) :=
  ⟨claim_C5_checkpoint_read.2.2 "steam\n" rfl,
   claim_C5_checkpoint_read.2.1 (-7)⟩

/-- C7: sink initialization.  With index 0 the data file is truncated or
created to hold exactly the single header row of the declared columns; with a
non-zero index the file is left entirely unchanged. -/
theorem claim_C7_prepare (dataFile : List (List String)) (columns : List String)
    (index : Int) :
    (index = 0 → prepare_data_file dataFile index columns = [columns]) ∧
    (index ≠ 0 → prepare_data_file dataFile index columns = dataFile) := by
  constructor <;> intro h <;> simp [prepare_data_file, h]

/-- Witness for C7: truncation at index 0, untouched file at index 5. -/
theorem claim_C7_prepare_witness :
    prepare_data_file [["a", "b"], ["1", "2"]] 0 ["x"] = [["x"]] ∧
    prepare_data_file [["a", "b"], ["1", "2"]] 5 ["x"] = [["a", "b"], ["1", "2"]] :=
  ⟨(claim_C7_prepare [["a", "b"], ["1", "2"]] ["x"] 0).1 rfl,
   (claim_C7_prepare [["a", "b"], ["1", "2"]] ["x"] 5).2 (by decide)⟩

/-- C9 fails on the code: a structurally present 4xx response is falsy in the
requests library (`bool(response)` is `status < 400`), so `get_request` treats
a permanent 404 exactly like an absent/throttled response — it sleeps 10
seconds and retries instead of terminating.  A transport answering 404 then
200 yields the 200 body after 2 attempts and one 10-second cooldown, and a
transport answering 404 forever makes `get_request` loop without terminating
for any amount of fuel. -/
theorem claim_C9_permanent_error :
    get_request (fun k => if k = 0 then TransportEvent.response 404 "error page"
        else TransportEvent.response 200 "payload") 2 0 =
      some (Except.ok "payload", 2, [10]) ∧
    (∀ fuel k : Nat,
      get_request (fun _ => TransportEvent.response 404 "error page") fuel k =
        none) := by
  constructor
  · rfl
  · intro fuel
    induction fuel with
    | zero => intro k; rfl
    | succ fuel ih =>
      intro k
      rw [get_request]
      simp [ih (k + 1)]

/-- C10 fails on the code: the handler clause `except SSLError` names an
identifier no import or statement of the module binds, so the first SSL
failure raises `NameError` out of `get_request` after a single attempt, with
no countdown sleep and no retry — even though a successful response was one
retry away. -/
theorem claim_C10_ssl_retry :
    importedNames.contains "SSLError" = false ∧
    (∀ fuel : Nat,
      get_request (fun k => if k = 0 then TransportEvent.raises ExnClass.sslExn
          else TransportEvent.response 200 "payload") (fuel + 1) 0 =
        some (Except.error ReqErr.nameError, 1, [])) := by
  exact ⟨rfl, fun fuel => rfl⟩

end SteamData
